import Mathlib

/-!
Verification development for the confura epoch sync core: the epoch sync
window, the KV cache sync loop, the block-number-partitioned log store and
the sync stall monitor. Go source functions are embedded as pure Lean
functions; stateful store operations are embedded as explicit state
passing; fallible collaborator calls are embedded as Except-valued oracle
parameters.
-/

/-! ## Epoch sync window

Modelled from the spec: the epochWindow implementation is not part of the
provided sources (only its caller KVCacheSyncer is), so the range state
machine below follows the specification of its eight operations: a numeric
range with a configured decay threshold, empty iff to < from.
-/

/-- The epoch sync window: a decay threshold together with the inclusive
range of epochs not yet fully consumed. -/
structure epochWindow where
  decayThreshold : Nat
  epochFrom : Nat
  epochTo : Nat
deriving DecidableEq, Inhabited

/-- Modelled from the spec: newEpochWindow starts from the zero range. -/
def newEpochWindow (threshold : Nat) : epochWindow :=
  { decayThreshold := threshold, epochFrom := 0, epochTo := 0 }

/-- Modelled from the spec: the window is empty iff to < from. -/
def epochWindow.isEmpty (w : epochWindow) : Bool :=
  decide (w.epochTo < w.epochFrom)

/-- Modelled from the spec: a pivot switch is detected when the new epoch is
already inside or behind the tracked range, namely newEpoch <= to. -/
def epochWindow.peekWillPivotSwitch (w : epochWindow) (newEpoch : Nat) : Bool :=
  decide (newEpoch ≤ w.epochTo)

/-- Modelled from the spec: overflow is detected when the gap newEpoch - from
exceeds the configured decay threshold (natural subtraction). -/
def epochWindow.peekWillOverflow (w : epochWindow) (newEpoch : Nat) : Bool :=
  decide (w.decayThreshold < newEpoch - w.epochFrom)

/-- Modelled from the spec: extends to up to newEpoch if greater. -/
def epochWindow.expandTo (w : epochWindow) (newEpoch : Nat) : epochWindow :=
  { w with epochTo := max w.epochTo newEpoch }

/-- Modelled from the spec: resets both ends of the range to newEpoch. -/
def epochWindow.expandFrom (w : epochWindow) (newEpoch : Nat) : epochWindow :=
  { w with epochFrom := newEpoch, epochTo := newEpoch }

/-- Modelled from the spec: unconditional overwrite of the range. -/
def epochWindow.reset (w : epochWindow) (f t : Nat) : epochWindow :=
  { w with epochFrom := f, epochTo := t }

/-- Modelled from the spec: reports the next chunk of up to maxCount epochs
starting at from, with size clamped to min maxCount (to - from + 1) and
size zero on an empty window, without mutating state. -/
def epochWindow.peekShrinkFrom (w : epochWindow) (maxCount : Nat) : Nat × Nat :=
  (w.epochFrom, min maxCount (w.epochTo + 1 - w.epochFrom))

/-- Modelled from the spec: same computation as peekShrinkFrom but advances
from past the consumed chunk. -/
def epochWindow.shrinkFrom (w : epochWindow) (maxCount : Nat) : (Nat × Nat) × epochWindow :=
  (((w.peekShrinkFrom maxCount).1, (w.peekShrinkFrom maxCount).2),
    { w with epochFrom := w.epochFrom + (w.peekShrinkFrom maxCount).2 })

/-! ## Epoch data

The store.EpochData payload consumed by the syncer and by the partitioned
log store: ordered blocks of transactions, receipts keyed by transaction
hash, and optional per-receipt extension metadata. -/

/-- One event log as reported by the chain node (input to ParseCfxLog). -/
structure CfxLog where
  address : String
  epoch : Nat
  topics : List String
  logIndex : Nat
deriving DecidableEq, Inhabited

/-- A transaction of a block. Modelled from the spec: the boolean field
stands for util.IsTxExecutedInBlock, the execution-status and
containing-block-hash match, whose implementation is not in the provided
sources. -/
structure TxData where
  hash : Nat
  execInBlock : Bool
deriving DecidableEq, Inhabited

/-- One block of an epoch. -/
structure BlockData where
  blockNumber : Nat
  transactions : List TxData
deriving DecidableEq, Inhabited

/-- A transaction receipt: the emitted event logs. -/
structure Receipt where
  logs : List CfxLog
deriving DecidableEq, Inhabited

/-- Optional per-receipt extension metadata carrying per-log extras. -/
structure ReceiptExtra where
  logExts : List (Option String)
deriving DecidableEq, Inhabited

/-- store.EpochData: blocks plus receipts and extras keyed by tx hash. -/
structure EpochData where
  blocks : List BlockData
  receipts : List (Nat × Receipt)
  receiptExts : List (Nat × ReceiptExtra)
deriving DecidableEq, Inhabited

/-! ## KVCacheSyncer operations

Each syncer method is embedded with its collaborator calls (cache store and
data source, spec section 6) as oracle parameters; the epoch window field is
passed and returned explicitly. -/

/-- Calls recorded against the cache store while handling one new epoch. -/
inductive StoreCall where
  | popn (epoch : Nat)
  | flush
deriving DecidableEq

/-- KVCacheSyncer.mustLoadLastSyncEpoch: on a successful global range read
the window is reset to (max+1, max); on a not-found error the window is
kept as is; any other error is fatal (none). -/
def mustLoadLastSyncEpoch (getGlobalEpochRange : Except String (Nat × Nat))
    (isRecordNotFound : String → Bool) (w : epochWindow) : Option epochWindow :=
  match getGlobalEpochRange with
  | .ok (_, maxEpoch) => some (w.reset (maxEpoch + 1) maxEpoch)
  | .error err => if isRecordNotFound err then some w else none

/-- KVCacheSyncer.handleNewEpoch: pivot-switch revert (through
pivotSwitchRevert, which delegates to the cache store Popn), overflow flush,
or plain forward extension. Also returns the store calls issued. -/
def handleNewEpoch (popn : Nat → Except String Unit) (flush : Except String Unit)
    (w : epochWindow) (newEpoch : Nat) : epochWindow × List StoreCall :=
  if w.peekWillPivotSwitch newEpoch then
    match popn newEpoch with
    | .ok _ => (w.expandFrom newEpoch, [StoreCall.popn newEpoch])
    | .error _ => (w, [StoreCall.popn newEpoch])
  else if w.peekWillOverflow newEpoch then
    match flush with
    | .ok _ => (w.reset newEpoch newEpoch, [StoreCall.flush])
    | .error _ => (w, [StoreCall.flush])
  else
    (w.expandTo newEpoch, [])

/-- The sequential per-epoch fetch loop of KVCacheSyncer.syncOnce: queries
epochs start, start+1, ... fail-fast, collecting the batch in order. -/
def fetchRange (query : Nat → Except String EpochData) : Nat → Nat → Except String (List EpochData)
  | _, 0 => .ok []
  | start, size + 1 =>
    match query start with
    | .error e => .error e
    | .ok d =>
      match fetchRange query (start + 1) size with
      | .error e => .error e
      | .ok rest => .ok (d :: rest)

/-- KVCacheSyncer.syncOnce: on a non-empty window, peek the next chunk,
fetch each epoch sequentially (fail-fast), hand the batch to the cache
store batch write, and only on its success commit with shrinkFrom. The
returned window is the (possibly unchanged) syncer window, the Except is
the method result (true iff the window ended empty). -/
def syncOnce (maxSyncEpochs : Nat) (query : Nat → Except String EpochData)
    (pushn : List EpochData → Except String Unit) (w : epochWindow) :
    epochWindow × Except String Bool :=
  if w.isEmpty then (w, .ok true)
  else
    match fetchRange query (w.peekShrinkFrom maxSyncEpochs).1 (w.peekShrinkFrom maxSyncEpochs).2 with
    | .error e => (w, .error e)
    | .ok batch =>
      match pushn batch with
      | .error e => (w, .error e)
      | .ok _ => ((w.shrinkFrom maxSyncEpochs).2, .ok ((w.shrinkFrom maxSyncEpochs).2).isEmpty)

/-! ## Sync stall monitor

Embedding of the Monitor of the monitor package: the mutex-guarded height
and advance-timestamp pair, the Update method, and the decision taken by
checkOnce once the latest chain height has been fetched successfully.
Heights are uint64 in the source; the lag comparison subtracts 1 in uint64
arithmetic, embedded with an explicit modulus. -/

/-- The uint64 modulus. -/
def UINT64_MOD : Nat := 2 ^ 64

/-- Monitor configuration: MaxStalledDuration and MaxAllowedLag. -/
structure MonitorConfig where
  maxStalledDuration : Nat
  maxAllowedLag : Nat
deriving DecidableEq

/-- Monitor state: the tracked sync height and the time of its last
increase. -/
structure Monitor where
  currentHeight : Nat
  lastAdvancedAt : Nat
deriving DecidableEq

/-- Monitor.Update: records newHeight unconditionally and refreshes the
advance timestamp to now only when newHeight exceeds the stored height. -/
def Monitor.Update (m : Monitor) (now newHeight : Nat) : Monitor :=
  { currentHeight := newHeight,
    lastAdvancedAt := if m.currentHeight < newHeight then now else m.lastAdvancedAt }

/-- Monitor.checkOnce after a successful latest-height fetch: success
(true) when the height advanced within MaxStalledDuration; otherwise
failure (false) exactly when currentHeight + MaxAllowedLag - 1, computed in
uint64 arithmetic, is below the latest height. -/
def Monitor.checkOnce (cfg : MonitorConfig) (m : Monitor) (now latestHeight : Nat) : Bool :=
  if now - m.lastAdvancedAt < cfg.maxStalledDuration then true
  else if (m.currentHeight + cfg.maxAllowedLag + (UINT64_MOD - 1)) % UINT64_MOD < latestHeight
    then false
  else true

/-! ## Block-number-partitioned store

The generic bnPartitionedStore implementation is not part of the provided
sources (only its caller logStoreV2 is); its metadata operations are
modelled from the spec, specialized to the single "logs" entity: partition
metadata is a list of partitions in ascending index order, and each
partition index owns one physical table of rows. -/

/-- Partition metadata: index, recorded block-number span (none when unset
or emptied) and row count. -/
structure bnPartition where
  index : Nat
  range : Option (Nat × Nat)
  count : Nat
deriving DecidableEq, Inhabited

/-- volume size per log partition (source constant). -/
def bnPartitionedLogVolumeSize : Nat := 10000000

/-- Modelled from the spec: latestPartition returns the highest-index
partition of the entity, or none when no partition exists yet. -/
def latestPartition (parts : List bnPartition) : Option bnPartition :=
  parts.getLast?

/-- The index growPartition allocates next: previous highest + 1, or 0. -/
def nextPartitionIndex (parts : List bnPartition) : Nat :=
  match parts.getLast? with
  | some p => p.index + 1
  | none => 0

/-- Modelled from the spec: growPartition allocates the next partition with
empty metadata (count 0, range unset) and registers it. -/
def growPartition (parts : List bnPartition) : bnPartition × List bnPartition :=
  ({ index := nextPartitionIndex parts, range := none, count := 0 },
    parts ++ [{ index := nextPartitionIndex parts, range := none, count := 0 }])

/-- Modelled from the spec: widening of one partition's recorded span. -/
def expandOne (i bnMin bnMax : Nat) (p : bnPartition) : bnPartition :=
  if p.index = i then
    match p.range with
    | none => { p with range := some (bnMin, bnMax) }
    | some (a, b) => { p with range := some (min a bnMin, max b bnMax) }
  else p

/-- Modelled from the spec: expandBnRange widens the recorded block-number
span of the partition at the given index (monotonic in both ends). -/
def expandBnRange (parts : List bnPartition) (i bnMin bnMax : Nat) : List bnPartition :=
  parts.map (expandOne i bnMin bnMax)

/-- A partition whose recorded max block number reaches the revert
boundary, hence a candidate holding rows to be deleted. -/
def shrinkCandidate (target : Nat) (p : bnPartition) : Bool :=
  match p.range with
  | some (_, mx) => decide (target ≤ mx)
  | none => false

/-- Modelled from the spec: the metadata update shrinkBnRange applies to a
candidate: recorded max drops to target - 1, or the span is cleared when
its min also reaches the boundary. -/
def shrinkOne (target : Nat) (p : bnPartition) : bnPartition :=
  match p.range with
  | some (mn, _) =>
    if target ≤ mn then { p with range := none } else { p with range := some (mn, target - 1) }
  | none => p

/-- Modelled from the spec: shrinkBnRange returns, in ascending index
order, every partition whose recorded max reaches the boundary, and
updates each such partition's recorded span. -/
def shrinkBnRange (parts : List bnPartition) (target : Nat) :
    List bnPartition × List bnPartition :=
  (parts.filter (shrinkCandidate target),
    parts.map (fun p => if shrinkCandidate target p then shrinkOne target p else p))

/-- Modelled from the spec: the counted-row adjustment deltaUpdateCount
applies to the partition at the given index; the count is clamped at
zero. -/
def deltaOne (i : Nat) (delta : Int) (p : bnPartition) : bnPartition :=
  if p.index = i then { p with count := ((p.count : Int) + delta).toNat } else p

/-- Modelled from the spec: deltaUpdateCount adjusts one partition's row
count by a (possibly negative) delta. -/
def deltaUpdateCount (parts : List bnPartition) (i : Nat) (delta : Int) : List bnPartition :=
  parts.map (deltaOne i delta)

/-- logStoreV2.preparePartition: returns the latest partition, growing a
new one first when none exists or the latest has reached the volume cap. -/
def preparePartition (parts : List bnPartition) : bnPartition × List bnPartition :=
  match latestPartition parts with
  | none => growPartition parts
  | some p =>
    if bnPartitionedLogVolumeSize ≤ p.count then growPartition parts else (p, parts)

/-- One row of a partitioned logs_v2 table (source struct logV2; the
auto-increment primary key is omitted). -/
structure logV2 where
  cid : Nat
  bn : Nat
  epoch : Nat
  topic0 : String
  topic1 : String
  topic2 : String
  topic3 : String
  logIndex : Nat
  extra : Option String
deriving DecidableEq, Inhabited

/-- The whole log store state: partition metadata plus the rows physically
present in each partition's table. -/
structure LogStoreState where
  parts : List bnPartition
  tables : Nat → List logV2

/-- Rows physically present in the table of one partition index. -/
def tableRows (st : LogStoreState) (idx : Nat) : List logV2 :=
  st.tables idx

/-- Replace the rows of one partition's table. -/
def setRows (st : LogStoreState) (idx : Nat) (rows : List logV2) : LogStoreState :=
  { st with tables := fun j => if j = idx then rows else st.tables j }

/-- The recorded count of the partition with the given index, if any. -/
def partCount (parts : List bnPartition) (idx : Nat) : Option Nat :=
  (parts.find? (fun p => p.index == idx)).map (fun p => p.count)

/-! ## Pushn: building and inserting the batch of log records -/

/-- Modelled from the spec: store.ParseCfxLog builds one log record (owning
contract id, containing block number and epoch, up to four topics, the
intra-receipt log index and the extension data); its implementation is not
in the provided sources. -/
def ParseCfxLog (log : CfxLog) (cid bn : Nat) (ext : Option String) : logV2 :=
  { cid := cid, bn := bn, epoch := log.epoch,
    topic0 := log.topics.getD 0 "", topic1 := log.topics.getD 1 "",
    topic2 := log.topics.getD 2 "", topic3 := log.topics.getD 3 "",
    logIndex := log.logIndex, extra := ext }

/-- The extension-metadata lookup of the per-log loop: the k-th log extra
when the receipt extra is present and k is within its list. -/
def extAt (rcptExt : Option ReceiptExtra) (k : Nat) : Option String :=
  match rcptExt with
  | some re => if k < re.logExts.length then re.logExts.getD k none else none
  | none => none

/-- The per-receipt log loop of logStoreV2.Pushn: resolves each log's
contract through the contract-store collaborator (fail-fast) and builds one
record per log, threading the intra-receipt index k for the extension
lookup. -/
def buildLogRecords (resolve : String → Except String Nat) (bn : Nat)
    (rcptExt : Option ReceiptExtra) : Nat → List CfxLog → Except String (List logV2)
  | _, [] => .ok []
  | k, log :: rest =>
    match resolve log.address with
    | .error e => .error e
    | .ok cid =>
      match buildLogRecords resolve bn rcptExt (k + 1) rest with
      | .error e => .error e
      | .ok more => .ok (ParseCfxLog log cid bn (extAt rcptExt k) :: more)

/-- The per-transaction step of logStoreV2.Pushn: a transaction contributes
records only when its receipt is present in the batch receipt map and it
passes the executed-in-block check. -/
def txRecords (resolve : String → Except String Nat) (data : EpochData) (bn : Nat)
    (tx : TxData) : Except String (List logV2) :=
  match data.receipts.lookup tx.hash with
  | none => .ok []
  | some receipt =>
    if tx.execInBlock then
      let rcptExt : Option ReceiptExtra :=
        if 0 < data.receiptExts.length then data.receiptExts.lookup tx.hash else none
      buildLogRecords resolve bn rcptExt 0 receipt.logs
    else .ok []

/-- Fail-fast concatenation of per-item record lists. -/
def collectE (f : α → Except String (List β)) : List α → Except String (List β)
  | [] => .ok []
  | a :: rest =>
    match f a with
    | .error e => .error e
    | .ok l =>
      match collectE f rest with
      | .error e => .error e
      | .ok ls => .ok (l ++ ls)

/-- Records contributed by one block of an epoch. -/
def blockRecords (resolve : String → Except String Nat) (data : EpochData)
    (b : BlockData) : Except String (List logV2) :=
  collectE (txRecords resolve data b.blockNumber) b.transactions

/-- Records contributed by one epoch. -/
def epochRecords (resolve : String → Except String Nat) (data : EpochData) :
    Except String (List logV2) :=
  collectE (blockRecords resolve data) data.blocks

/-- The full record-collection loop of logStoreV2.Pushn over the batch. -/
def collectLogs (resolve : String → Except String Nat) (dataSlice : List EpochData) :
    Except String (List logV2) :=
  collectE (epochRecords resolve) dataSlice

/-- Append rows to one partition's table. -/
def insertRows (st : LogStoreState) (idx : Nat) (rows : List logV2) : LogStoreState :=
  setRows st idx (tableRows st idx ++ rows)

/-- EpochData.GetPivotBlock: the pivot block is the last block. -/
def getPivotBlock (d : EpochData) : BlockData :=
  d.blocks.getLastD default

/-- The write phase of logStoreV2.Pushn once the batch records are
collected: return early with no state change when no record remains, else
insert all records into the prepared partition's table, then widen that
partition's recorded block range (first block of the first epoch up to the
pivot block of the last epoch) and then increment its count by the number
of inserted rows; row insertion leaves the metadata untouched, so the
metadata updates compose over the original partition list. -/
def pushnApply (dataSlice : List EpochData) (logPartition : bnPartition)
    (st : LogStoreState) (logs : List logV2) : LogStoreState × Option String :=
  if logs.length = 0 then (st, none)
  else
    (⟨deltaUpdateCount
        (expandBnRange (insertRows st logPartition.index logs).parts logPartition.index
          ((dataSlice.headD default).blocks.headD default).blockNumber
          (getPivotBlock (dataSlice.getLastD default)).blockNumber)
        logPartition.index (logs.length : Int),
      (insertRows st logPartition.index logs).tables⟩, none)

/-- logStoreV2.Pushn: collect the records of the batch (skipping receiptless
and unexecuted transactions, fail-fast on contract resolution), then run
the write phase. -/
def Pushn (resolve : String → Except String Nat) (dataSlice : List EpochData)
    (logPartition : bnPartition) (st : LogStoreState) : LogStoreState × Option String :=
  match collectLogs resolve dataSlice with
  | .error e => (st, some e)
  | .ok logs => pushnApply dataSlice logPartition st logs

/-- The record count the skip rules prescribe for one transaction: its
receipt must be present and the executed-in-block check must pass, and then
every log of the receipt counts once. -/
def txLogCount (data : EpochData) (tx : TxData) : Nat :=
  match data.receipts.lookup tx.hash with
  | none => 0
  | some receipt => if tx.execInBlock then receipt.logs.length else 0

/-- Prescribed record count of one block. -/
def blockRecordCount (data : EpochData) (b : BlockData) : Nat :=
  (b.transactions.map (txLogCount data)).sum

/-- Prescribed record count of one epoch. -/
def epochRecordCount (data : EpochData) : Nat :=
  (data.blocks.map (blockRecordCount data)).sum

/-- Prescribed record count of a whole batch. -/
def expectedRecordCount (dataSlice : List EpochData) : Nat :=
  (dataSlice.map epochRecordCount).sum

/-- The all-succeeding contract resolver used as a concrete witness. -/
def resolveW : String → Except String Nat := fun _ => .ok 42

/-- A concrete one-epoch batch: one block with number 7 holding one
executed transaction with a two-log receipt. -/
def sliceW : List EpochData :=
  [⟨[⟨7, [⟨1, true⟩]⟩], [(1, ⟨[⟨"a", 3, ["t0"], 0⟩, ⟨"a", 3, ["t0"], 1⟩]⟩)], []⟩]

/-- A concrete one-epoch batch whose only transaction lacks its receipt. -/
def sliceW0 : List EpochData := [⟨[⟨7, [⟨1, true⟩]⟩], [], []⟩]

/-- A concrete open target partition. -/
def partW : bnPartition := ⟨0, none, 0⟩

/-- A concrete log store state: one empty partition, empty tables. -/
def stW : LogStoreState := ⟨[⟨0, none, 0⟩], fun _ => []⟩

/-! ## Popn: reverting rows from the boundary block number -/

/-- The number of rows of a table at or beyond the revert boundary: exactly
the rows a delete with predicate bn >= bound removes. -/
def countRowsGE (rows : List logV2) (bound : Nat) : Nat :=
  (rows.filter (fun r => decide (bound ≤ r.bn))).length

/-- One iteration of the Popn delete loop on one partition index: delete
the rows at or beyond the boundary from that partition's table and apply
the negative count delta for exactly the number of rows removed. -/
def popnStep (bound : Nat) (s : LogStoreState) (idx : Nat) : LogStoreState :=
  ⟨deltaUpdateCount s.parts idx (-(countRowsGE (tableRows s idx) bound : Int)),
    fun j => if j = idx then (tableRows s idx).filter (fun row => decide (row.bn < bound))
      else s.tables j⟩

/-- The delete loop of logStoreV2.Popn over the candidate partitions,
highest index first (the caller passes the reversed candidate list),
recording one (index, rows deleted) event per candidate. -/
def popnDeleteLoop (bound : Nat) :
    List bnPartition → LogStoreState × List (Nat × Nat) → LogStoreState × List (Nat × Nat)
  | [], acc => acc
  | p :: rest, acc =>
    popnDeleteLoop bound rest
      (popnStep bound acc.1 p.index,
        acc.2 ++ [(p.index, countRowsGE (tableRows acc.1 p.index) bound)])

/-- logStoreV2.Popn: resolve the revert epoch to its block-number boundary
through the block-map collaborator (hard error when no mapping exists,
leaving the store untouched), shrink the partition range metadata to
obtain the candidates, then delete from each candidate from the highest
index down. Returns the final state, the delete events in execution order,
and the error if any. -/
def Popn (blockRange : Nat → Except String (Option (Nat × Nat))) (epochUntil : Nat)
    (st : LogStoreState) : LogStoreState × List (Nat × Nat) × Option String :=
  match blockRange epochUntil with
  | .error e => (st, [], some e)
  | .ok none => (st, [], some "no block mapping found for epoch")
  | .ok (some (bnFrom, _)) =>
    ((popnDeleteLoop bnFrom ((shrinkBnRange st.parts bnFrom).1).reverse
        (⟨(shrinkBnRange st.parts bnFrom).2, st.tables⟩, [])).1,
      (popnDeleteLoop bnFrom ((shrinkBnRange st.parts bnFrom).1).reverse
        (⟨(shrinkBnRange st.parts bnFrom).2, st.tables⟩, [])).2,
      none)

/-- A concrete log row with the given block number. -/
def rowP (bn : Nat) : logV2 := ⟨0, bn, 0, "", "", "", "", 0, none⟩

/-- A concrete two-partition log store: partition 0 spans blocks 0-9 with
3 rows, partition 1 spans blocks 10-20 with 4 rows. -/
def stP : LogStoreState :=
  ⟨[⟨0, some (0, 9), 3⟩, ⟨1, some (10, 20), 4⟩],
    fun j => if j = 0 then [rowP 1, rowP 5, rowP 9]
      else if j = 1 then [rowP 10, rowP 12, rowP 15, rowP 20] else []⟩

/-- A concrete block-map collaborator: epoch 5 maps to blocks 12-13, every
other epoch is unmapped. -/
def blockRangeP : Nat → Except String (Option (Nat × Nat)) :=
  fun e => if e = 5 then .ok (some (12, 13)) else .ok none

/-! ## Lemmas and claim theorems -/

/-! ### Fail-fast behaviour of the fetch loop -/

lemma fetchRange_error_of_exists (query : Nat → Except String EpochData) :
    ∀ (size start : Nat), (∃ i e, i < size ∧ query (start + i) = .error e) →
      ∃ e, fetchRange query start size = .error e := by
  intro size
  induction size with
  | zero => intro start h; obtain ⟨i, e, hi, _⟩ := h; omega
  | succ n ih =>
    intro start h
    obtain ⟨i, e, hi, hq⟩ := h
    cases hq0 : query start with
    | error e0 => exact ⟨e0, by simp [fetchRange, hq0]⟩
    | ok d =>
      have hipos : i ≠ 0 := by
        intro h0; subst h0; simp at hq; rw [hq] at hq0; cases hq0
      obtain ⟨j, rfl⟩ := Nat.exists_eq_succ_of_ne_zero hipos
      have hrec : ∃ e, fetchRange query (start + 1) n = .error e := by
        refine ih (start + 1) ⟨j, e, by omega, ?_⟩
        have : start + 1 + j = start + (j + 1) := by omega
        rw [this]; exact hq
      obtain ⟨e1, he1⟩ := hrec
      exact ⟨e1, by simp [fetchRange, hq0, he1]⟩

/-! ## Claim theorems for the sync loop -/

/-- C1: for every tick-driven sync attempt on a non-empty window, the
window is advanced (via shrinkFrom) only after the cache store batch write
Pushn returns success; a failure of any sequential per-epoch fetch aborts
the whole batch with an error, and on any error (fetch or Pushn) the
window is left exactly as it was. -/
theorem syncOnce_commit_after_push (m : Nat) (query : Nat → Except String EpochData)
    (pushn : List EpochData → Except String Unit) (w : epochWindow)
    (hne : w.isEmpty = false) :
    ((∃ i e, i < (w.peekShrinkFrom m).2 ∧ query ((w.peekShrinkFrom m).1 + i) = .error e) →
      ∃ e, syncOnce m query pushn w = (w, .error e)) ∧
    (∀ e, (syncOnce m query pushn w).2 = .error e → (syncOnce m query pushn w).1 = w) ∧
    (∀ b, (syncOnce m query pushn w).2 = .ok b →
      ∃ batch, fetchRange query (w.peekShrinkFrom m).1 (w.peekShrinkFrom m).2 = .ok batch ∧
        pushn batch = .ok () ∧
        (syncOnce m query pushn w).1 = (w.shrinkFrom m).2) := by
  refine ⟨?_, ?_, ?_⟩
  · intro h
    obtain ⟨e, he⟩ :=
      fetchRange_error_of_exists query (w.peekShrinkFrom m).2 (w.peekShrinkFrom m).1
        (by obtain ⟨i, e, hi, hq⟩ := h; exact ⟨i, e, hi, hq⟩)
    exact ⟨e, by simp [syncOnce, hne, he]⟩
  · intro e he
    cases hf : fetchRange query (w.peekShrinkFrom m).1 (w.peekShrinkFrom m).2 with
    | error e0 => simp [syncOnce, hne, hf]
    | ok batch =>
      cases hp : pushn batch with
      | error e1 => simp [syncOnce, hne, hf, hp]
      | ok u =>
        have hs : syncOnce m query pushn w
            = ((w.shrinkFrom m).2, .ok ((w.shrinkFrom m).2).isEmpty) := by
          simp [syncOnce, hne, hf, hp]
        rw [hs] at he
        simp at he
  · intro b hb
    cases hf : fetchRange query (w.peekShrinkFrom m).1 (w.peekShrinkFrom m).2 with
    | error e0 =>
      have hs : syncOnce m query pushn w = (w, .error e0) := by simp [syncOnce, hne, hf]
      rw [hs] at hb
      simp at hb
    | ok batch =>
      cases hp : pushn batch with
      | error e1 =>
        have hs : syncOnce m query pushn w = (w, .error e1) := by simp [syncOnce, hne, hf, hp]
        rw [hs] at hb
        simp at hb
      | ok u =>
        have hs : syncOnce m query pushn w
            = ((w.shrinkFrom m).2, .ok ((w.shrinkFrom m).2).isEmpty) := by
          simp [syncOnce, hne, hf, hp]
        exact ⟨batch, rfl, by cases u; exact hp, by rw [hs]⟩

/-- Witness for C1 at a concrete non-empty window, an all-succeeding data
source and an all-succeeding cache store. -/
theorem syncOnce_commit_after_push_witness :
    ((∃ i e, i < ((⟨100000, 1, 2⟩ : epochWindow).peekShrinkFrom 5).2 ∧
        (fun (_ : Nat) => (Except.ok default : Except String EpochData))
          (((⟨100000, 1, 2⟩ : epochWindow).peekShrinkFrom 5).1 + i) = .error e) →
      ∃ e, syncOnce 5 (fun _ => .ok default) (fun _ => .ok ()) ⟨100000, 1, 2⟩ =
        (⟨100000, 1, 2⟩, .error e)) ∧
    (∀ e, (syncOnce 5 (fun _ => .ok default) (fun _ => .ok ()) ⟨100000, 1, 2⟩).2 = .error e →
      (syncOnce 5 (fun _ => .ok default) (fun _ => .ok ()) ⟨100000, 1, 2⟩).1 = ⟨100000, 1, 2⟩) ∧
    (∀ b, (syncOnce 5 (fun _ => .ok default) (fun _ => .ok ()) ⟨100000, 1, 2⟩).2 = .ok b →
      ∃ batch, fetchRange (fun _ => .ok default)
          ((⟨100000, 1, 2⟩ : epochWindow).peekShrinkFrom 5).1
          ((⟨100000, 1, 2⟩ : epochWindow).peekShrinkFrom 5).2 = .ok batch ∧
        (fun (_ : List EpochData) => (Except.ok () : Except String Unit)) batch = .ok () ∧
        (syncOnce 5 (fun _ => .ok default) (fun _ => .ok ()) ⟨100000, 1, 2⟩).1 =
          ((⟨100000, 1, 2⟩ : epochWindow).shrinkFrom 5).2) :=
  syncOnce_commit_after_push 5 (fun _ => .ok default) (fun _ => .ok ())
    ⟨100000, 1, 2⟩ (by decide)

/-- C2: for a new-epoch notification detected as a pivot switch, the syncer
issues exactly the cache store revert Popn at that epoch; on success the
window becomes the single-epoch range at the notified epoch via expandFrom,
and on failure the window is left unchanged. -/
theorem handleNewEpoch_pivot_switch (popn : Nat → Except String Unit)
    (flush : Except String Unit) (w : epochWindow) (e : Nat)
    (h : w.peekWillPivotSwitch e = true) :
    (handleNewEpoch popn flush w e).2 = [StoreCall.popn e] ∧
    (popn e = .ok () → (handleNewEpoch popn flush w e).1 = w.expandFrom e ∧
      (w.expandFrom e).epochFrom = e ∧ (w.expandFrom e).epochTo = e) ∧
    (∀ err, popn e = .error err → (handleNewEpoch popn flush w e).1 = w) := by
  refine ⟨?_, ?_, ?_⟩
  · unfold handleNewEpoch
    simp only [h, if_true]
    cases popn e <;> simp
  · intro hp
    refine ⟨?_, rfl, rfl⟩
    unfold handleNewEpoch
    simp [h, hp]
  · intro err hp
    unfold handleNewEpoch
    simp [h, hp]

/-- Witness for C2: the spec scenario, window (50, 80) with notification 60
and a succeeding revert, ending at the single-epoch window (60, 60). -/
theorem handleNewEpoch_pivot_switch_witness :
    (handleNewEpoch (fun _ => .ok ()) (.ok ()) ⟨100000, 50, 80⟩ 60).2 = [StoreCall.popn 60] ∧
    ((fun (_ : Nat) => (Except.ok () : Except String Unit)) 60 = .ok () →
      (handleNewEpoch (fun _ => .ok ()) (.ok ()) ⟨100000, 50, 80⟩ 60).1 =
        (⟨100000, 50, 80⟩ : epochWindow).expandFrom 60 ∧
      ((⟨100000, 50, 80⟩ : epochWindow).expandFrom 60).epochFrom = 60 ∧
      ((⟨100000, 50, 80⟩ : epochWindow).expandFrom 60).epochTo = 60) ∧
    (∀ err, (fun (_ : Nat) => (Except.ok () : Except String Unit)) 60 = .error err →
      (handleNewEpoch (fun _ => .ok ()) (.ok ()) ⟨100000, 50, 80⟩ 60).1 = ⟨100000, 50, 80⟩) :=
  handleNewEpoch_pivot_switch (fun _ => .ok ()) (.ok ()) ⟨100000, 50, 80⟩ 60 (by decide)

/-- C3: for a new-epoch notification that is no pivot switch but overflows
the decayed window, the syncer calls the cache store Flush exactly once; on
success the window becomes the single-epoch range at the notified epoch via
reset, and on failure the window is left unchanged. -/
theorem handleNewEpoch_overflow_flush (popn : Nat → Except String Unit)
    (flush : Except String Unit) (w : epochWindow) (e : Nat)
    (h1 : w.peekWillPivotSwitch e = false) (h2 : w.peekWillOverflow e = true) :
    (handleNewEpoch popn flush w e).2 = [StoreCall.flush] ∧
    (flush = .ok () → (handleNewEpoch popn flush w e).1 = w.reset e e ∧
      (w.reset e e).epochFrom = e ∧ (w.reset e e).epochTo = e) ∧
    (∀ err, flush = .error err → (handleNewEpoch popn flush w e).1 = w) := by
  refine ⟨?_, ?_, ?_⟩
  · unfold handleNewEpoch
    simp only [h1, Bool.false_eq_true, if_false, h2, if_true]
    cases flush <;> simp
  · intro hf
    refine ⟨?_, rfl, rfl⟩
    unfold handleNewEpoch
    simp [h1, h2, hf]
  · intro err hf
    unfold handleNewEpoch
    simp [h1, h2, hf]

/-- Witness for C3: the spec scenario, window (100, 100) with decay
threshold 5 and notification 106, one Flush, ending at window (106, 106). -/
theorem handleNewEpoch_overflow_flush_witness :
    (handleNewEpoch (fun _ => .ok ()) (.ok ()) ⟨5, 100, 100⟩ 106).2 = [StoreCall.flush] ∧
    ((Except.ok () : Except String Unit) = .ok () →
      (handleNewEpoch (fun _ => .ok ()) (.ok ()) ⟨5, 100, 100⟩ 106).1 =
        (⟨5, 100, 100⟩ : epochWindow).reset 106 106 ∧
      ((⟨5, 100, 100⟩ : epochWindow).reset 106 106).epochFrom = 106 ∧
      ((⟨5, 100, 100⟩ : epochWindow).reset 106 106).epochTo = 106) ∧
    (∀ err, (Except.ok () : Except String Unit) = .error err →
      (handleNewEpoch (fun _ => .ok ()) (.ok ()) ⟨5, 100, 100⟩ 106).1 = ⟨5, 100, 100⟩) :=
  handleNewEpoch_overflow_flush (fun _ => .ok ()) (.ok ()) ⟨5, 100, 100⟩ 106
    (by decide) (by decide)

/-- C5: at startup, a successful global range read with maximum synced
epoch M resets the window to the empty range (M+1, M) whose next epoch to
consume is M+1; a not-found error keeps the window in its prior (zero)
state; any other error is fatal. -/
theorem mustLoadLastSyncEpoch_spec (g : Except String (Nat × Nat))
    (isNF : String → Bool) (w : epochWindow) :
    (∀ mn mx, g = .ok (mn, mx) →
      mustLoadLastSyncEpoch g isNF w = some (w.reset (mx + 1) mx) ∧
      (w.reset (mx + 1) mx).epochFrom = mx + 1 ∧
      (w.reset (mx + 1) mx).epochTo = mx ∧
      (w.reset (mx + 1) mx).isEmpty = true ∧
      (∀ k, ((w.reset (mx + 1) mx).peekShrinkFrom k).1 = mx + 1)) ∧
    (∀ err, g = .error err →
      (isNF err = true → mustLoadLastSyncEpoch g isNF w = some w) ∧
      (isNF err = false → mustLoadLastSyncEpoch g isNF w = none)) := by
  constructor
  · intro mn mx hg
    subst hg
    refine ⟨rfl, rfl, rfl, ?_, fun k => rfl⟩
    simp [epochWindow.reset, epochWindow.isEmpty]
  · intro err hg
    subst hg
    constructor
    · intro hnf; simp [mustLoadLastSyncEpoch, hnf]
    · intro hnf; simp [mustLoadLastSyncEpoch, hnf]

/-- Witness for C5 at a concrete successful range read with maximum epoch 7
and at concrete not-found and fatal errors. -/
theorem mustLoadLastSyncEpoch_spec_witness :
    (mustLoadLastSyncEpoch (.ok (0, 7)) (fun _ => true) (newEpochWindow 100000) =
      some ((newEpochWindow 100000).reset 8 7) ∧
      ((newEpochWindow 100000).reset 8 7).epochFrom = 8 ∧
      ((newEpochWindow 100000).reset 8 7).epochTo = 7 ∧
      ((newEpochWindow 100000).reset 8 7).isEmpty = true ∧
      (∀ k, (((newEpochWindow 100000).reset 8 7).peekShrinkFrom k).1 = 8)) ∧
    (mustLoadLastSyncEpoch (.error "nf") (fun _ => true) (newEpochWindow 100000) =
      some (newEpochWindow 100000)) ∧
    (mustLoadLastSyncEpoch (.error "corrupt") (fun _ => false) (newEpochWindow 100000) =
      none) :=
  ⟨(mustLoadLastSyncEpoch_spec (.ok (0, 7)) (fun _ => true) (newEpochWindow 100000)).1
      0 7 rfl,
   ((mustLoadLastSyncEpoch_spec (.error "nf") (fun _ => true)
      (newEpochWindow 100000)).2 "nf" rfl).1 rfl,
   ((mustLoadLastSyncEpoch_spec (.error "corrupt") (fun _ => false)
      (newEpochWindow 100000)).2 "corrupt" rfl).2 rfl⟩

/-- C8 counterexample: with MaxAllowedLag 200, a stalled monitor at height
0 and latest height 200 reports failure although the lag 200 does not
exceed MaxAllowedLag, refuting the claimed strict-inequality boundary. -/
theorem checkOnce_claim_counterexample :
    Monitor.checkOnce ⟨300, 200⟩ ⟨0, 0⟩ 300 200 = false ∧ ¬ (200 - 0 > 200) := by
  constructor
  · rfl
  · decide

/-- C8 as amended: once the stalled duration is exceeded, checkOnce reports
failure exactly when the latest height is at least currentHeight +
MaxAllowedLag (that is, the height lags by MaxAllowedLag or more), and
reports success below that boundary; when the height advanced within
MaxStalledDuration it reports success regardless of the latest height and
of the lag. The side conditions rule out uint64 wraparound of the
currentHeight + MaxAllowedLag - 1 computation. -/
theorem checkOnce_lag_boundary (cfg : MonitorConfig) (m : Monitor) (now latest : Nat)
    (h1 : 1 ≤ m.currentHeight + cfg.maxAllowedLag)
    (h2 : m.currentHeight + cfg.maxAllowedLag ≤ UINT64_MOD) :
    (cfg.maxStalledDuration ≤ now - m.lastAdvancedAt →
      (Monitor.checkOnce cfg m now latest = false ↔
        m.currentHeight + cfg.maxAllowedLag ≤ latest)) ∧
    (now - m.lastAdvancedAt < cfg.maxStalledDuration →
      Monitor.checkOnce cfg m now latest = true) := by
  have hM : 0 < UINT64_MOD := by norm_num [UINT64_MOD]
  have hmod : (m.currentHeight + cfg.maxAllowedLag + (UINT64_MOD - 1)) % UINT64_MOD
      = m.currentHeight + cfg.maxAllowedLag - 1 := by
    have heq : m.currentHeight + cfg.maxAllowedLag + (UINT64_MOD - 1)
        = (m.currentHeight + cfg.maxAllowedLag - 1) + UINT64_MOD := by omega
    rw [heq, Nat.add_mod_right]
    exact Nat.mod_eq_of_lt (by omega)
  constructor
  · intro hstall
    have hnot : ¬ (now - m.lastAdvancedAt < cfg.maxStalledDuration) := by omega
    unfold Monitor.checkOnce
    rw [if_neg hnot, hmod]
    by_cases hlt : m.currentHeight + cfg.maxAllowedLag - 1 < latest
    · rw [if_pos hlt]
      have hle : m.currentHeight + cfg.maxAllowedLag ≤ latest := by omega
      simp [hle]
    · rw [if_neg hlt]
      have hgt : ¬ (m.currentHeight + cfg.maxAllowedLag ≤ latest) := by omega
      simp [hgt]
  · intro hfresh
    unfold Monitor.checkOnce
    rw [if_pos hfresh]

/-- Witness for the amended C8: with MaxAllowedLag 200, a stalled monitor
at height 0 fails against latest height 250 (lag at least the allowed
maximum), and a freshly advanced monitor succeeds. -/
theorem checkOnce_lag_boundary_witness :
    (300 ≤ 300 - 0 →
      (Monitor.checkOnce ⟨300, 200⟩ ⟨0, 0⟩ 300 250 = false ↔ 0 + 200 ≤ 250)) ∧
    (299 - 0 < 300 → Monitor.checkOnce ⟨300, 200⟩ ⟨0, 0⟩ 299 250 = true) :=
  ⟨(checkOnce_lag_boundary ⟨300, 200⟩ ⟨0, 0⟩ 300 250 (by decide)
      (by norm_num [UINT64_MOD])).1,
   (checkOnce_lag_boundary ⟨300, 200⟩ ⟨0, 0⟩ 299 250 (by decide)
      (by norm_num [UINT64_MOD])).2⟩

/-- C9 counterexample: Update stores the new height unconditionally, so a
lower height overwrites a higher one and the stored current height
decreases across a sequence of Update calls. -/
theorem update_monotonic_counterexample :
    ((Monitor.Update (Monitor.Update ⟨0, 0⟩ 1 10) 2 5).currentHeight <
      (Monitor.Update ⟨0, 0⟩ 1 10).currentHeight) := by
  decide

/-- C9 as amended: Update(h) stores h unconditionally (so the stored height
can decrease), and the advance timestamp is refreshed by Update(h) exactly
when h strictly exceeds the previously stored height. -/
theorem Update_records_and_timestamps (m : Monitor) (now h : Nat) :
    (m.Update now h).currentHeight = h ∧
    (m.currentHeight < h → (m.Update now h).lastAdvancedAt = now) ∧
    (¬ m.currentHeight < h → (m.Update now h).lastAdvancedAt = m.lastAdvancedAt) := by
  refine ⟨rfl, ?_, ?_⟩
  · intro hlt
    unfold Monitor.Update
    simp [hlt]
  · intro hge
    unfold Monitor.Update
    simp [hge]

/-- Witness for the amended C9 at concrete advancing and non-advancing
updates. -/
theorem Update_records_and_timestamps_witness :
    ((Monitor.Update ⟨3, 7⟩ 9 10).currentHeight = 10 ∧
      ((3 : Nat) < 10 → (Monitor.Update ⟨3, 7⟩ 9 10).lastAdvancedAt = 9) ∧
      (¬ (3 : Nat) < 10 → (Monitor.Update ⟨3, 7⟩ 9 10).lastAdvancedAt = 7)) ∧
    ((Monitor.Update ⟨3, 7⟩ 9 2).currentHeight = 2 ∧
      ((3 : Nat) < 2 → (Monitor.Update ⟨3, 7⟩ 9 2).lastAdvancedAt = 9) ∧
      (¬ (3 : Nat) < 2 → (Monitor.Update ⟨3, 7⟩ 9 2).lastAdvancedAt = 7)) :=
  ⟨Update_records_and_timestamps ⟨3, 7⟩ 9 10, Update_records_and_timestamps ⟨3, 7⟩ 9 2⟩

lemma expandOne_index (i mn mx : Nat) (p : bnPartition) :
    (expandOne i mn mx p).index = p.index := by
  unfold expandOne
  split
  · split <;> rfl
  · rfl

lemma expandOne_count (i mn mx : Nat) (p : bnPartition) :
    (expandOne i mn mx p).count = p.count := by
  unfold expandOne
  split
  · split <;> rfl
  · rfl

lemma shrinkOne_index (t : Nat) (p : bnPartition) : (shrinkOne t p).index = p.index := by
  unfold shrinkOne
  split
  · split <;> rfl
  · rfl

lemma shrinkOne_count (t : Nat) (p : bnPartition) : (shrinkOne t p).count = p.count := by
  unfold shrinkOne
  split
  · split <;> rfl
  · rfl

lemma deltaOne_index (i : Nat) (d : Int) (p : bnPartition) :
    (deltaOne i d p).index = p.index := by
  unfold deltaOne
  split <;> rfl

lemma find?_map_index_preserving (g : bnPartition → bnPartition)
    (hidx : ∀ p, (g p).index = p.index) (parts : List bnPartition) (j : Nat) :
    (parts.map g).find? (fun p => p.index == j) =
      (parts.find? (fun p => p.index == j)).map g := by
  induction parts with
  | nil => rfl
  | cons p rest ih =>
    by_cases hpj : (p.index == j) = true
    · simp [List.find?_cons, hidx p, hpj]
    · have hpj2 : (p.index == j) = false := by simpa using hpj
      simp only [List.map_cons, List.find?_cons, hidx p, hpj2]
      exact ih

lemma partCount_map_of_preserving (g : bnPartition → bnPartition)
    (hidx : ∀ p, (g p).index = p.index) (hcnt : ∀ p, (g p).count = p.count)
    (parts : List bnPartition) (j : Nat) :
    partCount (parts.map g) j = partCount parts j := by
  unfold partCount
  rw [find?_map_index_preserving g hidx]
  cases parts.find? (fun p => p.index == j) with
  | none => rfl
  | some p => simp [hcnt]

lemma partCount_expandBnRange (parts : List bnPartition) (i mn mx j : Nat) :
    partCount (expandBnRange parts i mn mx) j = partCount parts j :=
  partCount_map_of_preserving _ (expandOne_index i mn mx) (expandOne_count i mn mx) parts j

lemma partCount_shrinkAll (parts : List bnPartition) (t j : Nat) :
    partCount (shrinkBnRange parts t).2 j = partCount parts j := by
  refine partCount_map_of_preserving _ ?_ ?_ parts j
  · intro p
    split
    · exact shrinkOne_index t p
    · rfl
  · intro p
    split
    · exact shrinkOne_count t p
    · rfl

lemma partCount_deltaUpdateCount (parts : List bnPartition) (i : Nat) (d : Int) (j : Nat) :
    partCount (deltaUpdateCount parts i d) j =
      if j = i then (partCount parts j).map (fun c => ((c : Int) + d).toNat)
      else partCount parts j := by
  unfold partCount deltaUpdateCount
  rw [find?_map_index_preserving (deltaOne i d) (deltaOne_index i d)]
  cases hf : parts.find? (fun p => p.index == j) with
  | none => cases hji : decide (j = i) <;> simp [hji]
  | some p =>
    have hpj : p.index = j := by
      have hps := List.find?_some hf
      simpa using hps
    by_cases hji : j = i
    · subst hji
      rw [if_pos rfl]
      simp [deltaOne, hpj]
    · rw [if_neg hji]
      simp [deltaOne, hpj, hji]

lemma find?_eq_some_of_mem_nodup (parts : List bnPartition) (p : bnPartition)
    (hmem : p ∈ parts) (hnd : (parts.map (fun q => q.index)).Nodup) :
    parts.find? (fun q => q.index == p.index) = some p := by
  induction parts with
  | nil => cases hmem
  | cons q rest ih =>
    simp only [List.map_cons, List.nodup_cons] at hnd
    obtain ⟨hq, hnd2⟩ := hnd
    rcases List.mem_cons.mp hmem with rfl | hmem2
    · simp [List.find?_cons]
    · have hne : (q.index == p.index) = false := by
        simp only [beq_eq_false_iff_ne, ne_eq]
        intro hqp
        exact hq (by rw [hqp]; exact List.mem_map_of_mem _ hmem2)
      simp only [List.find?_cons, hne]
      exact ih hmem2 hnd2

/-! ## Claim theorem for preparePartition -/

/-- C6: preparePartition returns the latest logs partition unchanged when
one exists with count strictly below the volume cap of 10,000,000 rows,
and grows and returns a brand-new next partition (count 0, next index,
appended to the metadata) exactly when no partition exists or the latest
count has reached the cap. -/
theorem preparePartition_cap (parts : List bnPartition) :
    (∀ p, latestPartition parts = some p → p.count < bnPartitionedLogVolumeSize →
      preparePartition parts = (p, parts)) ∧
    ((latestPartition parts = none ∨
        ∃ p, latestPartition parts = some p ∧ bnPartitionedLogVolumeSize ≤ p.count) →
      preparePartition parts = growPartition parts ∧
      (preparePartition parts).1.count = 0 ∧
      (preparePartition parts).1.index = nextPartitionIndex parts ∧
      (preparePartition parts).2 = parts ++ [(preparePartition parts).1]) := by
  constructor
  · intro p hp hlt
    have hnot : ¬ bnPartitionedLogVolumeSize ≤ p.count := Nat.not_le.mpr hlt
    simp [preparePartition, hp, hnot]
  · intro h
    have hgrow : preparePartition parts = growPartition parts := by
      rcases h with hnone | ⟨p, hp, hge⟩
      · simp [preparePartition, hnone]
      · simp [preparePartition, hp, hge]
    exact ⟨hgrow, by rw [hgrow]; rfl, by rw [hgrow]; rfl, by rw [hgrow]; rfl⟩

/-- Witness for C6: a below-cap latest partition is returned unchanged, and
a full latest partition forces growth of the fresh next partition. -/
theorem preparePartition_cap_witness :
    (preparePartition [⟨0, none, 5⟩] = (⟨0, none, 5⟩, [⟨0, none, 5⟩]) ∧
      latestPartition [⟨0, none, 5⟩] = some ⟨0, none, 5⟩) ∧
    (preparePartition [⟨0, none, 10000000⟩] = growPartition [⟨0, none, 10000000⟩] ∧
      (preparePartition [⟨0, none, 10000000⟩]).1.count = 0 ∧
      (preparePartition [⟨0, none, 10000000⟩]).1.index =
        nextPartitionIndex [⟨0, none, 10000000⟩] ∧
      (preparePartition [⟨0, none, 10000000⟩]).2 =
        [⟨0, none, 10000000⟩] ++ [(preparePartition [⟨0, none, 10000000⟩]).1]) :=
  ⟨⟨(preparePartition_cap [⟨0, none, 5⟩]).1 ⟨0, none, 5⟩ rfl (by norm_num
      [bnPartitionedLogVolumeSize]), rfl⟩,
   (preparePartition_cap [⟨0, none, 10000000⟩]).2
      (Or.inr ⟨⟨0, none, 10000000⟩, rfl, by norm_num [bnPartitionedLogVolumeSize]⟩)⟩

lemma buildLogRecords_length (resolve : String → Except String Nat) (bn : Nat)
    (rcptExt : Option ReceiptExtra) :
    ∀ (logs : List CfxLog) (k : Nat) (recs : List logV2),
      buildLogRecords resolve bn rcptExt k logs = .ok recs → recs.length = logs.length := by
  intro logs
  induction logs with
  | nil => intro k recs h; simp [buildLogRecords] at h; simp [← h]
  | cons log rest ih =>
    intro k recs h
    unfold buildLogRecords at h
    cases hr : resolve log.address with
    | error e => rw [hr] at h; cases h
    | ok cid =>
      rw [hr] at h
      cases hb : buildLogRecords resolve bn rcptExt (k + 1) rest with
      | error e => rw [hb] at h; cases h
      | ok more =>
        rw [hb] at h
        simp only [Except.ok.injEq] at h
        subst h
        simp [ih (k + 1) more hb]

lemma txRecords_length (resolve : String → Except String Nat) (data : EpochData)
    (bn : Nat) (tx : TxData) (recs : List logV2)
    (h : txRecords resolve data bn tx = .ok recs) : recs.length = txLogCount data tx := by
  unfold txRecords at h
  unfold txLogCount
  cases hl : data.receipts.lookup tx.hash with
  | none => rw [hl] at h; simp at h; simp [← h]
  | some receipt =>
    rw [hl] at h
    cases hexec : tx.execInBlock with
    | false => simp [hexec] at h; simp [hexec, ← h]
    | true =>
      simp only [hexec, if_true] at h
      simp only [if_true]
      exact buildLogRecords_length resolve bn _ receipt.logs 0 recs h

lemma collectE_length (f : α → Except String (List β)) (g : α → Nat)
    (hf : ∀ a l, f a = .ok l → l.length = g a) :
    ∀ (L : List α) (out : List β), collectE f L = .ok out → out.length = (L.map g).sum := by
  intro L
  induction L with
  | nil => intro out h; simp [collectE] at h; simp [← h]
  | cons a rest ih =>
    intro out h
    unfold collectE at h
    cases ha : f a with
    | error e => rw [ha] at h; cases h
    | ok l =>
      rw [ha] at h
      cases hrest : collectE f rest with
      | error e => rw [hrest] at h; cases h
      | ok ls =>
        rw [hrest] at h
        simp only [Except.ok.injEq] at h
        subst h
        simp [hf a l ha, ih ls hrest]

lemma collectLogs_length (resolve : String → Except String Nat)
    (dataSlice : List EpochData) (logs : List logV2)
    (h : collectLogs resolve dataSlice = .ok logs) :
    logs.length = expectedRecordCount dataSlice := by
  refine collectE_length _ epochRecordCount ?_ dataSlice logs h
  intro data l hdata
  refine collectE_length _ (blockRecordCount data) ?_ data.blocks l hdata
  intro b lb hb
  refine collectE_length _ (txLogCount data) ?_ b.transactions lb hb
  intro tx lt ht
  exact txRecords_length resolve data b.blockNumber tx lt ht

lemma collectE_nil_of_all_nil (f : α → Except String (List β)) (L : List α)
    (h : ∀ a ∈ L, f a = .ok []) : collectE f L = .ok [] := by
  induction L with
  | nil => rfl
  | cons a rest ih =>
    have ha : f a = .ok [] := h a (List.mem_cons_self a rest)
    have hrest : collectE f rest = .ok [] := ih (fun b hb => h b (List.mem_cons_of_mem a hb))
    simp [collectE, ha, hrest]

lemma txRecords_nil_of_count_zero (resolve : String → Except String Nat) (data : EpochData)
    (bn : Nat) (tx : TxData) (h : txLogCount data tx = 0) :
    txRecords resolve data bn tx = .ok [] := by
  unfold txLogCount at h
  unfold txRecords
  cases hl : data.receipts.lookup tx.hash with
  | none => rfl
  | some receipt =>
    rw [hl] at h
    cases hexec : tx.execInBlock with
    | false => simp [hexec]
    | true =>
      simp only [hexec, if_true] at h ⊢
      have : receipt.logs = [] := List.length_eq_zero.mp h
      rw [this]
      rfl

lemma collectLogs_nil_of_count_zero (resolve : String → Except String Nat)
    (dataSlice : List EpochData) (h : expectedRecordCount dataSlice = 0) :
    collectLogs resolve dataSlice = .ok [] := by
  unfold expectedRecordCount at h
  refine collectE_nil_of_all_nil _ _ ?_
  intro data hdata
  have hd : epochRecordCount data = 0 := by
    rw [List.sum_eq_zero_iff] at h
    exact h _ (List.mem_map_of_mem _ hdata)
  unfold epochRecordCount at hd
  refine collectE_nil_of_all_nil _ _ ?_
  intro b hbmem
  have hb : blockRecordCount data b = 0 := by
    rw [List.sum_eq_zero_iff] at hd
    exact hd _ (List.mem_map_of_mem _ hbmem)
  unfold blockRecordCount at hb
  refine collectE_nil_of_all_nil _ _ ?_
  intro tx htxmem
  have ht : txLogCount data tx = 0 := by
    rw [List.sum_eq_zero_iff] at hb
    exact hb _ (List.mem_map_of_mem _ htxmem)
  exact txRecords_nil_of_count_zero resolve data b.blockNumber tx ht

/-! ## Claim theorems for Pushn -/

/-- C7: on a successful Pushn, a transaction contributes records only when
its receipt is present and the executed-in-block check passes (the
prescribed count txLogCount demands both); every log of every such
transaction becomes exactly one record, the records are appended to the
target partition's table, and the target partition's count is incremented
by exactly the number of records inserted. -/
theorem Pushn_executed_only_count (resolve : String → Except String Nat)
    (dataSlice : List EpochData) (part : bnPartition) (st st' : LogStoreState)
    (h : Pushn resolve dataSlice part st = (st', none)) :
    ∃ logs, collectLogs resolve dataSlice = .ok logs ∧
      logs.length = expectedRecordCount dataSlice ∧
      tableRows st' part.index = tableRows st part.index ++ logs ∧
      partCount st'.parts part.index =
        (partCount st.parts part.index).map (fun c => c + logs.length) := by
  cases hc : collectLogs resolve dataSlice with
  | error e =>
    have hdis : Pushn resolve dataSlice part st = (st, some e) := by
      unfold Pushn; rw [hc]
    rw [hdis] at h
    simp at h
  | ok logs =>
    have hdis : Pushn resolve dataSlice part st = pushnApply dataSlice part st logs := by
      unfold Pushn; rw [hc]
    rw [hdis] at h
    unfold pushnApply at h
    by_cases hz : logs.length = 0
    · rw [if_pos hz] at h
      simp only [Prod.mk.injEq] at h
      obtain ⟨hst, -⟩ := h
      subst hst
      have hnil : logs = [] := List.length_eq_zero.mp hz
      refine ⟨logs, rfl, collectLogs_length resolve dataSlice logs hc, ?_, ?_⟩
      · rw [hnil]; simp
      · rw [hnil]
        cases partCount st.parts part.index <;> simp
    · rw [if_neg hz] at h
      simp only [Prod.mk.injEq] at h
      obtain ⟨hst, -⟩ := h
      refine ⟨logs, rfl, collectLogs_length resolve dataSlice logs hc, ?_, ?_⟩
      · rw [← hst]
        simp [tableRows, insertRows, setRows]
      · rw [← hst]
        simp only [insertRows, setRows]
        rw [partCount_deltaUpdateCount]
        rw [if_pos rfl]
        rw [partCount_expandBnRange]
        cases partCount st.parts part.index with
        | none => rfl
        | some c =>
          have htn : ((c : Int) + (logs.length : Int)).toNat = c + logs.length := by omega
          simp [htn]

/-- Witness for C7: a successful concrete Pushn of a two-log batch. -/
theorem Pushn_executed_only_count_witness :
    ∃ logs, collectLogs resolveW sliceW = .ok logs ∧
      logs.length = expectedRecordCount sliceW ∧
      tableRows (Pushn resolveW sliceW partW stW).1 partW.index =
        tableRows stW partW.index ++ logs ∧
      partCount (Pushn resolveW sliceW partW stW).1.parts partW.index =
        (partCount stW.parts partW.index).map (fun c => c + logs.length) :=
  Pushn_executed_only_count resolveW sliceW partW stW
    (Pushn resolveW sliceW partW stW).1 rfl

/-- C10: when the skip rules leave zero records for the whole batch, Pushn
returns success and the store state is wholly unchanged: no row is
inserted, no partition range is widened, no count is touched. -/
theorem Pushn_skip_all_frame (resolve : String → Except String Nat)
    (dataSlice : List EpochData) (part : bnPartition) (st : LogStoreState)
    (h : expectedRecordCount dataSlice = 0) :
    Pushn resolve dataSlice part st = (st, none) := by
  have hc := collectLogs_nil_of_count_zero resolve dataSlice h
  unfold Pushn
  rw [hc]
  rfl

/-- Witness for C10: a batch whose only transaction is receiptless leaves
the concrete store untouched. -/
theorem Pushn_skip_all_frame_witness :
    Pushn resolveW sliceW0 partW stW = (stW, none) :=
  Pushn_skip_all_frame resolveW sliceW0 partW stW rfl

lemma tableRows_popnStep (bound : Nat) (s : LogStoreState) (idx j : Nat) :
    tableRows (popnStep bound s idx) j =
      if j = idx then (tableRows s idx).filter (fun row => decide (row.bn < bound))
      else tableRows s j := rfl

lemma partCount_popnStep (bound : Nat) (s : LogStoreState) (idx j : Nat) :
    partCount (popnStep bound s idx).parts j =
      if j = idx then
        (partCount s.parts j).map (fun c => c - countRowsGE (tableRows s idx) bound)
      else partCount s.parts j := by
  unfold popnStep
  rw [partCount_deltaUpdateCount]
  by_cases hj : j = idx
  · rw [if_pos hj, if_pos hj]
    cases partCount s.parts j with
    | none => rfl
    | some c =>
      have htn : ((c : Int) + -(countRowsGE (tableRows s idx) bound : Int)).toNat =
          c - countRowsGE (tableRows s idx) bound := by omega
      simp [htn]
  · rw [if_neg hj, if_neg hj]

lemma list_map_congr_mem (l : List α) (f g : α → β) (h : ∀ a ∈ l, f a = g a) :
    l.map f = l.map g := by
  induction l with
  | nil => rfl
  | cons a rest ih =>
    simp only [List.map_cons]
    rw [h a (List.mem_cons_self a rest), ih (fun b hb => h b (List.mem_cons_of_mem a hb))]

lemma popnDeleteLoop_spec (bound : Nat) :
    ∀ (L : List bnPartition) (s : LogStoreState) (evs : List (Nat × Nat)),
      (L.map (fun p => p.index)).Nodup →
      (popnDeleteLoop bound L (s, evs)).2 =
        evs ++ L.map (fun p => (p.index, countRowsGE (tableRows s p.index) bound)) ∧
      (∀ p ∈ L,
        tableRows (popnDeleteLoop bound L (s, evs)).1 p.index =
          (tableRows s p.index).filter (fun row => decide (row.bn < bound)) ∧
        partCount (popnDeleteLoop bound L (s, evs)).1.parts p.index =
          (partCount s.parts p.index).map
            (fun c => c - countRowsGE (tableRows s p.index) bound)) ∧
      (∀ j, j ∉ L.map (fun p => p.index) →
        tableRows (popnDeleteLoop bound L (s, evs)).1 j = tableRows s j ∧
        partCount (popnDeleteLoop bound L (s, evs)).1.parts j = partCount s.parts j) := by
  intro L
  induction L with
  | nil =>
    intro s evs _
    refine ⟨by simp [popnDeleteLoop], by simp, fun j _ => ⟨rfl, rfl⟩⟩
  | cons p rest ih =>
    intro s evs hnd
    simp only [List.map_cons, List.nodup_cons] at hnd
    obtain ⟨hp, hnd2⟩ := hnd
    have hqne : ∀ q ∈ rest, q.index ≠ p.index := by
      intro q hq hqp
      exact hp (hqp ▸ List.mem_map_of_mem _ hq)
    obtain ⟨ihA, ihB, ihC⟩ := ih (popnStep bound s p.index)
      (evs ++ [(p.index, countRowsGE (tableRows s p.index) bound)]) hnd2
    have hstep : popnDeleteLoop bound (p :: rest) (s, evs) =
        popnDeleteLoop bound rest (popnStep bound s p.index,
          evs ++ [(p.index, countRowsGE (tableRows s p.index) bound)]) := rfl
    refine ⟨?_, ?_, ?_⟩
    · rw [hstep, ihA]
      have hmap : rest.map
            (fun q => (q.index, countRowsGE (tableRows (popnStep bound s p.index) q.index) bound)) =
          rest.map (fun q => (q.index, countRowsGE (tableRows s q.index) bound)) := by
        refine list_map_congr_mem rest _ _ ?_
        intro q hq
        rw [tableRows_popnStep, if_neg (hqne q hq)]
      rw [hmap]
      simp
    · intro q hq
      rcases List.mem_cons.mp hq with rfl | hq2
      · obtain ⟨ht, hcnt⟩ := ihC q.index hp
        rw [hstep]
        constructor
        · rw [ht, tableRows_popnStep, if_pos rfl]
        · rw [hcnt, partCount_popnStep, if_pos rfl]
      · obtain ⟨ht, hcnt⟩ := ihB q hq2
        rw [hstep]
        constructor
        · rw [ht, tableRows_popnStep, if_neg (hqne q hq2)]
        · rw [hcnt, partCount_popnStep, if_neg (hqne q hq2),
            tableRows_popnStep, if_neg (hqne q hq2)]
    · intro j hj
      simp only [List.map_cons, List.mem_cons, not_or] at hj
      obtain ⟨hj1, hj2⟩ := hj
      obtain ⟨ht, hcnt⟩ := ihC j hj2
      rw [hstep]
      constructor
      · rw [ht, tableRows_popnStep, if_neg hj1]
      · rw [hcnt, partCount_popnStep, if_neg hj1]

/-! ## Claim theorem for Popn -/

/-- C4: Popn returns a hard error and leaves rows and partition metadata
untouched when the block-map collaborator reports no mapping for the
revert epoch; otherwise it obtains the candidates via shrinkBnRange at the
mapped boundary block number and, iterating from the highest candidate
index down to the lowest, deletes from each candidate exactly the rows
with block number at or beyond the boundary and decrements that
partition's count by exactly the number of rows actually deleted. -/
theorem Popn_revert_boundary (blockRange : Nat → Except String (Option (Nat × Nat)))
    (epochUntil : Nat) (st : LogStoreState)
    (hnd : (st.parts.map (fun p => p.index)).Nodup) :
    (blockRange epochUntil = .ok none →
      Popn blockRange epochUntil st = (st, [], some "no block mapping found for epoch")) ∧
    (∀ bnFrom bnTo, blockRange epochUntil = .ok (some (bnFrom, bnTo)) →
      (Popn blockRange epochUntil st).2.2 = none ∧
      (Popn blockRange epochUntil st).2.1 =
        ((shrinkBnRange st.parts bnFrom).1.reverse).map
          (fun p => (p.index, countRowsGE (tableRows st p.index) bnFrom)) ∧
      (∀ p ∈ (shrinkBnRange st.parts bnFrom).1,
        tableRows (Popn blockRange epochUntil st).1 p.index =
          (tableRows st p.index).filter (fun row => decide (row.bn < bnFrom)) ∧
        partCount (Popn blockRange epochUntil st).1.parts p.index =
          some (p.count - countRowsGE (tableRows st p.index) bnFrom))) := by
  constructor
  · intro hbr
    unfold Popn
    rw [hbr]
  · intro bnFrom bnTo hbr
    have heq : Popn blockRange epochUntil st =
        ((popnDeleteLoop bnFrom ((shrinkBnRange st.parts bnFrom).1).reverse
            (⟨(shrinkBnRange st.parts bnFrom).2, st.tables⟩, [])).1,
          (popnDeleteLoop bnFrom ((shrinkBnRange st.parts bnFrom).1).reverse
            (⟨(shrinkBnRange st.parts bnFrom).2, st.tables⟩, [])).2,
          none) := by
      unfold Popn
      rw [hbr]
    have hndrev :
        ((((shrinkBnRange st.parts bnFrom).1).reverse).map (fun p => p.index)).Nodup := by
      rw [List.map_reverse]
      rw [List.nodup_reverse]
      exact ((List.filter_sublist st.parts).map (fun p => p.index)).nodup hnd
    obtain ⟨lA, lB, lC⟩ := popnDeleteLoop_spec bnFrom
      ((shrinkBnRange st.parts bnFrom).1).reverse
      ⟨(shrinkBnRange st.parts bnFrom).2, st.tables⟩ [] hndrev
    refine ⟨by rw [heq], ?_, ?_⟩
    · rw [heq]
      dsimp only
      rw [lA]
      simp [tableRows]
    · intro p hp
      have hprev : p ∈ ((shrinkBnRange st.parts bnFrom).1).reverse := List.mem_reverse.mpr hp
      obtain ⟨ht, hcnt⟩ := lB p hprev
      have hpc : partCount ((shrinkBnRange st.parts bnFrom).2) p.index = some p.count := by
        rw [partCount_shrinkAll]
        have hmem : p ∈ st.parts := (List.mem_filter.mp hp).1
        unfold partCount
        rw [find?_eq_some_of_mem_nodup st.parts p hmem hnd]
        rfl
      constructor
      · rw [heq]
        dsimp only
        rw [ht]
        rfl
      · rw [heq]
        dsimp only
        rw [hcnt]
        have hs : (⟨(shrinkBnRange st.parts bnFrom).2, st.tables⟩ : LogStoreState).parts =
            (shrinkBnRange st.parts bnFrom).2 := rfl
        rw [hs, hpc]
        rfl

/-- Witness for C4: an unmapped epoch leaves the concrete store untouched
with a hard error, and a revert to boundary block 12 truncates only
partition 1, deleting its three rows at or beyond 12 and decrementing its
count by exactly three. -/
theorem Popn_revert_boundary_witness :
    (Popn blockRangeP 4 stP = (stP, [], some "no block mapping found for epoch")) ∧
    ((Popn blockRangeP 5 stP).2.2 = none ∧
      (Popn blockRangeP 5 stP).2.1 =
        ((shrinkBnRange stP.parts 12).1.reverse).map
          (fun p => (p.index, countRowsGE (tableRows stP p.index) 12)) ∧
      (∀ p ∈ (shrinkBnRange stP.parts 12).1,
        tableRows (Popn blockRangeP 5 stP).1 p.index =
          (tableRows stP p.index).filter (fun row => decide (row.bn < 12)) ∧
        partCount (Popn blockRangeP 5 stP).1.parts p.index =
          some (p.count - countRowsGE (tableRows stP p.index) 12))) :=
  ⟨(Popn_revert_boundary blockRangeP 4 stP (by decide)).1 rfl,
   (Popn_revert_boundary blockRangeP 5 stP (by decide)).2 12 13 rfl⟩
